import Mathlib

/-!
Shallow embedding of `fov/fov.go` (package `fov` of norendren/go-fov),
which computes a field of view on a 2D grid by recursive shadowcasting.

Modelling conventions:
* Go `int` is modelled as `Int` (ideal integers).
* The Go `float64` slope values are modelled as exact fractions (`Slope`):
  every slope the program builds is `0`, `1`, or `(height ± 0.5)/dist`
  with integer `height` and `dist`, and the only slope consumer is
  `math.Floor(slope*float64(dist) + 0.5)`; on the concrete inputs evaluated
  below all intermediate values are small dyadic rationals, on which
  `float64` arithmetic is exact, so the exact-fraction model agrees with
  the source's floating point there.
* `int(math.Sqrt(vx + vy))` on integer inputs is the truncated integer
  square root (for integers below 2^52 the correctly rounded `float64`
  square root truncates to exactly the integer square root); it is
  modelled by the executable `isqrt`.
* The Go set `map[string]struct{}` keyed by `fmt.Sprintf("%d,%d", x, y)`
  is modelled as a `Finset (Int × Int)`: that key format is injective in
  `(x, y)`, so the map is exactly a set of coordinate pairs.
* The mutation of `v.Visible` is modelled by threading the set through
  the recursion.  The recursion on `dist` (which the source stops as soon
  as `dist > rad`) is modelled with an explicit fuel argument;
  `fovRec_fuel_congr` below proves that any fuel at least
  `(rad + 1 - dist).toNat` yields the same result, so the fuel is not
  observable and `View.Compute` (which passes `r.toNat + 1`) computes the
  exact semantics of the terminating Go recursion.
-/

namespace GoFov

/-- The Go `GridMap` interface: `Index`, `InBounds`, `IsOpaque`.  `Index`
is part of the interface but never used by the visibility algorithm. -/
structure GridMap where
  Index : Int → Int → Int × Int
  InBounds : Int → Int → Bool
  IsOpaque : Int → Int → Bool

/-- The Go `gridSet` (`map[string]struct{}` keyed by `"x,y"`), as a set of
coordinate pairs. -/
abbrev gridSet := Finset (Int × Int)

/-- Go's bitwise `&` on `int`, at the nonnegative arguments the program
uses (octant ids 1..8 against the masks 0x1, 0x2, 0x4). -/
def intAnd (a b : Int) : Int := Int.ofNat (Nat.land a.toNat b.toNat)

/-- `distHeightXY` from fov.go: maps the player coordinates plus a
(distance, height, octant) triple to the visited cell's coordinates. -/
def distHeightXY (px py d h oct : Int) : Int × Int :=
  let d1 := if 0 < intAnd oct 1 then -d else d
  let h1 := if 0 < intAnd oct 2 then -h else h
  if 0 < intAnd oct 4 then (px + h1, py + d1) else (px + d1, py + h1)

/-- Truncated integer square root, executable by the kernel: one less than
the number of `k ≤ n` with `k*k ≤ n`. -/
def isqrt (n : Nat) : Nat :=
  ((List.range (n + 1)).filter fun k => decide (k * k ≤ n)).length - 1

/-- `distTo` from fov.go: `int(math.Sqrt(pow(x1-x2, 2) + pow(y1-y2, 2)))`,
the Euclidean distance truncated toward zero after the square root. -/
def distTo (x1 y1 x2 y2 : Int) : Int :=
  Int.ofNat (isqrt ((x1 - x2) * (x1 - x2) + (y1 - y2) * (y1 - y2)).toNat)

/-- A `float64` slope value, modelled exactly as the fraction
`num / den`. -/
structure Slope where
  num : Int
  den : Int

/-- The slope `0` passed by `Compute`. -/
def slopeZero : Slope := ⟨0, 1⟩

/-- The slope `1` passed by `Compute`. -/
def slopeOne : Slope := ⟨1, 1⟩

/-- `math.Floor(s*float64(dist) + 0.5)` for the slope `s = num/den`:
equals `⌊(2*num*dist + den) / (2*den)⌋`, taken with floor division. -/
def slopeRound (s : Slope) (dist : Int) : Int :=
  Int.fdiv (2 * s.num * dist + s.den) (2 * s.den)

/-- The Go expression `(height - 0.5) / float64(dist)`. -/
def halfBelowOver (height dist : Int) : Slope := ⟨2 * height - 1, 2 * dist⟩

/-- The Go expression `(height + 0.5) / float64(dist)`. -/
def halfAboveOver (height dist : Int) : Slope := ⟨2 * height + 1, 2 * dist⟩

/-- The integer values taken by the loop variable in
`for height := low; height <= high; height++`. -/
def heightList (low high : Int) : List Int :=
  (List.range (high + 1 - low).toNat).map fun i => low + i

/-- The marking statement of the loop body of `View.fov`: if the visited
cell is in bounds and strictly closer to the player than the radius, add
it to the visible set (`v.Visible[...] = struct{}{}`). -/
def markStep (grid : GridMap) (px py dist height oct rad : Int)
    (vis : gridSet) : gridSet :=
  if grid.InBounds (distHeightXY px py dist height oct).1
        (distHeightXY px py dist height oct).2
      && decide (distTo px py (distHeightXY px py dist height oct).1
        (distHeightXY px py dist height oct).2 < rad) then
    insert (distHeightXY px py dist height oct) vis
  else vis

/-- The `for height := low; height <= high; height++` loop of `View.fov`,
threading the mutable `lowSlope`, `inGap` and the visible set through the
iterations; `recur low high vis` stands for the recursive call
`v.fov(grid, px, py, dist+1, low, high, oct, rad)` acting on `vis`.
The branch on `grid.InBounds(...) && !grid.IsOpaque(...)` is the source's
(its own comments say the test was meant to be on an opaque tile, see the
claim analyses below). -/
def fovLoop (recur : Slope → Slope → gridSet → gridSet) (grid : GridMap)
    (px py dist : Int) (highSlope : Slope) (oct rad high : Int) :
    List Int → Slope → Bool → gridSet → gridSet
  | [], _, _, vis => vis
  | height :: rest, lowSlope, inGap, vis =>
    if grid.InBounds (distHeightXY px py dist height oct).1
          (distHeightXY px py dist height oct).2
        && !grid.IsOpaque (distHeightXY px py dist height oct).1
          (distHeightXY px py dist height oct).2 then
      fovLoop recur grid px py dist highSlope oct rad high rest
        (halfAboveOver height dist) false
        (if inGap then
          recur lowSlope (halfBelowOver height dist)
            (markStep grid px py dist height oct rad vis)
        else markStep grid px py dist height oct rad vis)
    else
      fovLoop recur grid px py dist highSlope oct rad high rest
        lowSlope true
        (if height = high then
          recur lowSlope highSlope (markStep grid px py dist height oct rad vis)
        else markStep grid px py dist height oct rad vis)

/-- `View.fov` from fov.go, with an explicit fuel for the recursion on
`dist`.  The source returns as soon as `dist > rad`; `fovRec_fuel_congr`
shows any fuel of at least `(rad + 1 - dist).toNat` gives the same
result, so the fuel is not observable. -/
def fovRec : Nat → GridMap → Int → Int → Int → Slope → Slope → Int → Int →
    gridSet → gridSet
  | 0, _, _, _, _, _, _, _, _, vis => vis
  | fuel + 1, grid, px, py, dist, lowSlope, highSlope, oct, rad, vis =>
    if dist > rad then vis
    else
      fovLoop (fun ls hs v => fovRec fuel grid px py (dist + 1) ls hs oct rad v)
        grid px py dist highSlope oct rad (slopeRound highSlope dist)
        (heightList (slopeRound lowSlope dist) (slopeRound highSlope dist))
        lowSlope false vis

/-- The Go `View` struct: the set of visible cells. -/
structure View where
  Visible : gridSet

/-- `New()` from fov.go: a fresh `View` (its nil map contains nothing). -/
def New : View := ⟨∅⟩

/-- `View.Compute` from fov.go: replace the visible set by a fresh set
holding the player's cell, then run the octant scan for octants 1..8,
each starting at `dist = 1`, `lowSlope = 0`, `highSlope = 1`.  The
previous `View` state is discarded (`v.Visible = make(...)`). -/
def View.Compute (_v : View) (grid : GridMap) (px py r : Int) : View :=
  ⟨[1, 2, 3, 4, 5, 6, 7, 8].foldl
    (fun vis oct => fovRec (r.toNat + 1) grid px py 1 slopeZero slopeOne oct r vis)
    (insert (px, py) (∅ : gridSet))⟩

/-- `View.IsVisible` from fov.go: membership in the visible set. -/
def View.IsVisible (v : View) (x y : Int) : Bool := decide ((x, y) ∈ v.Visible)

/-- The octant transform exactly as the specification describes it: bit 0
of the octant id negates `d`, bit 1 negates `h`, bit 2 swaps which axis
receives `d` and which receives `h`. -/
def distHeightXYSpec (px py d h oct : Int) : Int × Int :=
  let d1 := if oct.toNat.testBit 0 then -d else d
  let h1 := if oct.toNat.testBit 1 then -h else h
  if oct.toNat.testBit 2 then (px + h1, py + d1) else (px + d1, py + h1)

/-- A 7x7 grid (coordinates 0..6), fully transparent; `Index` is the
identity pairing (it is unused by the algorithm). -/
def grid7 : GridMap :=
  ⟨fun x y => (x, y),
   fun x y => decide (0 ≤ x ∧ x ≤ 6 ∧ 0 ≤ y ∧ y ≤ 6),
   fun _ _ => false⟩

/-- The same 7x7 grid with a single opaque cell at (4,3). -/
def grid7Wall : GridMap :=
  ⟨fun x y => (x, y),
   fun x y => decide (0 ≤ x ∧ x ≤ 6 ∧ 0 ≤ y ∧ y ≤ 6),
   fun x y => decide (x = 4 ∧ y = 3)⟩

/-- A grid whose `InBounds` is true everywhere and which is fully
transparent. -/
def openGrid : GridMap := ⟨fun x y => (x, y), fun _ _ => true, fun _ _ => false⟩

/-- A grid whose `InBounds` is false everywhere. -/
def noBoundsGrid : GridMap :=
  ⟨fun x y => (x, y), fun _ _ => false, fun _ _ => false⟩

/-- A 1x1 grid, fully transparent. -/
def grid1 : GridMap :=
  ⟨fun x y => (x, y), fun x y => decide (x = 0 ∧ y = 0), fun _ _ => false⟩

/-- The 1x1 grid made opaque everywhere outside its bounds (it agrees
with `grid1` on `InBounds`, and on `IsOpaque` wherever `InBounds`
holds). -/
def grid1OpaqueOutside : GridMap :=
  ⟨fun x y => (x, y), fun x y => decide (x = 0 ∧ y = 0),
   fun x y => !decide (x = 0 ∧ y = 0)⟩

/-- The base case of the scan: as soon as `dist > rad` the set is
returned unchanged, whatever the fuel. -/
theorem fovRec_base {dist rad : Int} (hlt : rad < dist) :
    ∀ (fuel : Nat) (grid : GridMap) (px py : Int) (ls hs : Slope)
      (oct : Int) (vis : gridSet),
      fovRec fuel grid px py dist ls hs oct rad vis = vis := by
  intro fuel grid px py ls hs oct vis
  cases fuel with
  | zero => rfl
  | succ n => simp [fovRec, hlt]

/-- Marking only ever adds cells. -/
theorem subset_markStep (grid : GridMap) (px py dist height oct rad : Int)
    (vis : gridSet) : vis ⊆ markStep grid px py dist height oct rad vis := by
  unfold markStep
  split
  · exact Finset.subset_insert _ _
  · exact Finset.Subset.refl _

/-- Any cell added by the marking statement is in bounds and strictly
closer to the player than the radius. -/
theorem mem_markStep {grid : GridMap} {px py dist height oct rad : Int}
    {vis : gridSet} {x : Int × Int}
    (hx : x ∈ markStep grid px py dist height oct rad vis) :
    x ∈ vis ∨ (grid.InBounds x.1 x.2 = true ∧ distTo px py x.1 x.2 < rad) := by
  unfold markStep at hx
  split at hx
  case isTrue hcond =>
    rcases Finset.mem_insert.mp hx with hEq | hMem
    · subst hEq
      simp only [Bool.and_eq_true, decide_eq_true_eq] at hcond
      exact Or.inr ⟨hcond.1, hcond.2⟩
    · exact Or.inl hMem
  case isFalse hcond => exact Or.inl hx

/-- Marking does not consult `IsOpaque`, and consults `InBounds` only at
the visited cell, so it is the same on grids with equal `InBounds`. -/
theorem markStep_congr {g1 g2 : GridMap}
    (hb : ∀ x y, g1.InBounds x y = g2.InBounds x y) :
    ∀ (px py dist height oct rad : Int) (vis : gridSet),
      markStep g1 px py dist height oct rad vis
        = markStep g2 px py dist height oct rad vis := by
  intro px py dist height oct rad vis
  unfold markStep
  rw [hb]

/-- The scan loop only ever adds cells, provided the recursive calls only
ever add cells. -/
theorem fovLoop_mono {recur : Slope → Slope → gridSet → gridSet}
    {grid : GridMap} {px py dist : Int} {hs : Slope} {oct rad high : Int}
    (hrec : ∀ a b v, v ⊆ recur a b v) :
    ∀ (l : List Int) (ls : Slope) (g : Bool) (vis : gridSet),
      vis ⊆ fovLoop recur grid px py dist hs oct rad high l ls g vis := by
  intro l
  induction l with
  | nil =>
    intro ls g vis
    simp only [fovLoop]
    exact Finset.Subset.refl _
  | cons height rest ih =>
    intro ls g vis
    simp only [fovLoop]
    split
    · refine Finset.Subset.trans ?_ (ih _ _ _)
      split
      · exact Finset.Subset.trans (subset_markStep _ _ _ _ _ _ _ _) (hrec _ _ _)
      · exact subset_markStep _ _ _ _ _ _ _ _
    · refine Finset.Subset.trans ?_ (ih _ _ _)
      split
      · exact Finset.Subset.trans (subset_markStep _ _ _ _ _ _ _ _) (hrec _ _ _)
      · exact subset_markStep _ _ _ _ _ _ _ _

/-- Any cell the scan loop adds is in bounds and strictly closer to the
player than the radius, provided the recursive calls also have this
property. -/
theorem fovLoop_inv {recur : Slope → Slope → gridSet → gridSet}
    {grid : GridMap} {px py dist : Int} {hs : Slope} {oct rad high : Int}
    (hrec : ∀ a b v (x : Int × Int), x ∈ recur a b v →
      x ∈ v ∨ (grid.InBounds x.1 x.2 = true ∧ distTo px py x.1 x.2 < rad)) :
    ∀ (l : List Int) (ls : Slope) (g : Bool) (vis : gridSet) (x : Int × Int),
      x ∈ fovLoop recur grid px py dist hs oct rad high l ls g vis →
      x ∈ vis ∨ (grid.InBounds x.1 x.2 = true ∧ distTo px py x.1 x.2 < rad) := by
  intro l
  induction l with
  | nil =>
    intro ls g vis x hx
    simp only [fovLoop] at hx
    exact Or.inl hx
  | cons height rest ih =>
    intro ls g vis x hx
    simp only [fovLoop] at hx
    split at hx
    · rcases ih _ _ _ _ hx with hx2 | hq
      · split at hx2
        · rcases hrec _ _ _ _ hx2 with hx3 | hq
          · exact mem_markStep hx3
          · exact Or.inr hq
        · exact mem_markStep hx2
      · exact Or.inr hq
    · rcases ih _ _ _ _ hx with hx2 | hq
      · split at hx2
        · rcases hrec _ _ _ _ hx2 with hx3 | hq
          · exact mem_markStep hx3
          · exact Or.inr hq
        · exact mem_markStep hx2
      · exact Or.inr hq

/-- The scan loop is the same on two grids that agree on `InBounds`
everywhere and on `IsOpaque` at in-bounds cells, and under pointwise
equal recursive calls: every `IsOpaque` consultation is short-circuited
behind an `InBounds` check on the same coordinate. -/
theorem fovLoop_congr {g1 g2 : GridMap}
    (hb : ∀ x y, g1.InBounds x y = g2.InBounds x y)
    (ho : ∀ x y, g1.InBounds x y = true → g1.IsOpaque x y = g2.IsOpaque x y)
    {recur1 recur2 : Slope → Slope → gridSet → gridSet}
    (hrec : ∀ a b v, recur1 a b v = recur2 a b v)
    {px py dist : Int} {hs : Slope} {oct rad high : Int} :
    ∀ (l : List Int) (ls : Slope) (g : Bool) (vis : gridSet),
      fovLoop recur1 g1 px py dist hs oct rad high l ls g vis
        = fovLoop recur2 g2 px py dist hs oct rad high l ls g vis := by
  have hcond : ∀ mx my : Int,
      (g1.InBounds mx my && !g1.IsOpaque mx my)
        = (g2.InBounds mx my && !g2.IsOpaque mx my) := by
    intro mx my
    rw [← hb mx my]
    cases hIn : g1.InBounds mx my with
    | false => simp
    | true => rw [ho mx my hIn]
  intro l
  induction l with
  | nil =>
    intro ls g vis
    simp only [fovLoop]
  | cons height rest ih =>
    intro ls g vis
    simp only [fovLoop, markStep_congr hb, hcond, hrec, ih]

/-- `View.fov` only ever adds cells. -/
theorem fovRec_mono :
    ∀ (fuel : Nat) (grid : GridMap) (px py dist : Int) (ls hs : Slope)
      (oct rad : Int) (vis : gridSet),
      vis ⊆ fovRec fuel grid px py dist ls hs oct rad vis := by
  intro fuel
  induction fuel with
  | zero =>
    intro grid px py dist ls hs oct rad vis
    exact Finset.Subset.refl _
  | succ n ih =>
    intro grid px py dist ls hs oct rad vis
    simp only [fovRec]
    split
    · exact Finset.Subset.refl _
    · exact fovLoop_mono (fun a b v => ih grid px py (dist + 1) a b oct rad v) _ _ _ _

/-- Any cell `View.fov` adds is in bounds and strictly closer to the
player than the radius. -/
theorem fovRec_inv :
    ∀ (fuel : Nat) (grid : GridMap) (px py dist : Int) (ls hs : Slope)
      (oct rad : Int) (vis : gridSet) (x : Int × Int),
      x ∈ fovRec fuel grid px py dist ls hs oct rad vis →
      x ∈ vis ∨ (grid.InBounds x.1 x.2 = true ∧ distTo px py x.1 x.2 < rad) := by
  intro fuel
  induction fuel with
  | zero =>
    intro grid px py dist ls hs oct rad vis x hx
    exact Or.inl hx
  | succ n ih =>
    intro grid px py dist ls hs oct rad vis x hx
    simp only [fovRec] at hx
    split at hx
    · exact Or.inl hx
    · exact fovLoop_inv (fun a b v y hy => ih grid px py (dist + 1) a b oct rad v y hy)
        _ _ _ _ _ hx

/-- `View.fov` is the same on two grids that agree on `InBounds`
everywhere and on `IsOpaque` at in-bounds cells. -/
theorem fovRec_grid_congr {g1 g2 : GridMap}
    (hb : ∀ x y, g1.InBounds x y = g2.InBounds x y)
    (ho : ∀ x y, g1.InBounds x y = true → g1.IsOpaque x y = g2.IsOpaque x y) :
    ∀ (fuel : Nat) (px py dist : Int) (ls hs : Slope) (oct rad : Int)
      (vis : gridSet),
      fovRec fuel g1 px py dist ls hs oct rad vis
        = fovRec fuel g2 px py dist ls hs oct rad vis := by
  intro fuel
  induction fuel with
  | zero =>
    intro px py dist ls hs oct rad vis
    rfl
  | succ n ih =>
    intro px py dist ls hs oct rad vis
    simp only [fovRec]
    by_cases hd : dist > rad
    · rw [if_pos hd, if_pos hd]
    · rw [if_neg hd, if_neg hd]
      exact fovLoop_congr hb ho (fun a b v => ih px py (dist + 1) a b oct rad v) _ _ _ _

/-- Fuel independence: any fuel of at least `(rad + 1 - dist).toNat`
gives the same scan result, i.e. the recursion depth is bounded by the
radius. -/
theorem fovRec_fuel_congr (grid : GridMap) (px py oct rad : Int) :
    ∀ (f1 f2 : Nat) (dist : Int) (ls hs : Slope) (vis : gridSet),
      (rad + 1 - dist).toNat ≤ f1 → (rad + 1 - dist).toNat ≤ f2 →
      fovRec f1 grid px py dist ls hs oct rad vis
        = fovRec f2 grid px py dist ls hs oct rad vis := by
  intro f1
  induction f1 with
  | zero =>
    intro f2 dist ls hs vis h1 h2
    have hlt : rad < dist := by omega
    rw [fovRec_base hlt, fovRec_base hlt]
  | succ n ih =>
    intro f2 dist ls hs vis h1 h2
    by_cases hlt : rad < dist
    · rw [fovRec_base hlt, fovRec_base hlt]
    · cases f2 with
      | zero => exact absurd h2 (by omega)
      | succ m =>
        simp only [fovRec]
        rw [if_neg hlt, if_neg hlt]
        exact fovLoop_congr (fun x y => rfl) (fun x y hxy => rfl)
          (fun a b v => ih m (dist + 1) a b v (by omega) (by omega)) _ _ _ _

/-- A fold over octants only ever adds cells if each step does. -/
theorem gsFoldl_subset {f : gridSet → Int → gridSet}
    (hf : ∀ vis a, vis ⊆ f vis a) :
    ∀ (l : List Int) (vis : gridSet), vis ⊆ List.foldl f vis l := by
  intro l
  induction l with
  | nil =>
    intro vis
    rw [List.foldl_nil]
  | cons a l ih =>
    intro vis
    rw [List.foldl_cons]
    exact Finset.Subset.trans (hf vis a) (ih (f vis a))

/-- Membership after a fold over octants comes from the start set or from
some step, if each step only adds cells satisfying `Q`. -/
theorem gsFoldl_mem {f : gridSet → Int → gridSet} {Q : Int × Int → Prop}
    (hf : ∀ vis a x, x ∈ f vis a → x ∈ vis ∨ Q x) :
    ∀ (l : List Int) (vis : gridSet) (x : Int × Int),
      x ∈ List.foldl f vis l → x ∈ vis ∨ Q x := by
  intro l
  induction l with
  | nil =>
    intro vis x hx
    rw [List.foldl_nil] at hx
    exact Or.inl hx
  | cons a l ih =>
    intro vis x hx
    rw [List.foldl_cons] at hx
    rcases ih (f vis a) x hx with h | h
    · exact hf vis a x h
    · exact Or.inr h

/-- A fold whose steps are the identity is the identity. -/
theorem gsFoldl_fix {f : gridSet → Int → gridSet}
    (hf : ∀ vis a, f vis a = vis) :
    ∀ (l : List Int) (vis : gridSet), List.foldl f vis l = vis := by
  intro l
  induction l with
  | nil =>
    intro vis
    rfl
  | cons a l ih =>
    intro vis
    rw [List.foldl_cons, hf, ih]

/-- Folds of pointwise equal step functions agree. -/
theorem gsFoldl_congr {f g : gridSet → Int → gridSet}
    (hfg : ∀ vis a, f vis a = g vis a) :
    ∀ (l : List Int) (vis : gridSet), List.foldl f vis l = List.foldl g vis l := by
  intro l
  induction l with
  | nil =>
    intro vis
    rfl
  | cons a l ih =>
    intro vis
    rw [List.foldl_cons, List.foldl_cons, hfg, ih]

/-- C1 (code evaluation at the failing input): on the 7x7 grid whose only
opaque cell is (4,3), after `Compute(grid, 3, 3, 3)` the code reports
(4,3) visible, (6,3) not visible and (4,4) visible as the claim states,
but it also reports (5,3) — the cell directly behind the wall — VISIBLE,
contradicting the claim's occlusion statement: the source's inverted
transparency test (`!grid.IsOpaque` where its own comments describe a
test for an opaque tile) makes the scan recurse exactly into the
shadowed wedge behind the wall. -/
theorem claim1_scenarioB_code_eval :
    (View.Compute New grid7Wall 3 3 3).IsVisible 4 3 = true ∧
    (View.Compute New grid7Wall 3 3 3).IsVisible 5 3 = true ∧
    (View.Compute New grid7Wall 3 3 3).IsVisible 6 3 = false ∧
    (View.Compute New grid7Wall 3 3 3).IsVisible 4 4 = true := by
  decide

/-- C2 (code evaluation at the failing input): on a grid that is in
bounds everywhere and fully transparent, after `Compute(grid, 3, 3, 3)`
the cell (5,3), whose truncated Euclidean distance from the observer is
2 < 3, is NOT visible under the code, contradicting the claimed
radius-truncation characterization: with the inverted transparency test
the end-of-scan continuation never runs on a transparent grid, so no
cell at distance ≥ 2 is ever visited. -/
theorem claim2_open_field_code_eval :
    (View.Compute New openGrid 3 3 3).IsVisible 3 3 = true ∧
    (View.Compute New openGrid 3 3 3).IsVisible 4 3 = true ∧
    (View.Compute New openGrid 3 3 3).IsVisible 5 3 = false ∧
    distTo 3 3 5 3 = 2 := by
  decide

/-- C3 (counterexample): on a grid whose `InBounds` is false everywhere,
the observer's own cell is in the result set after `Compute` even though
`InBounds` fails for it — `Compute` inserts the observer's cell without
any bounds check, so the claim's "including the observer's own cell" part
is false. -/
theorem claim3_counterexample :
    (0, 0) ∈ (View.Compute New noBoundsGrid 0 0 0).Visible ∧
    noBoundsGrid.InBounds 0 0 = false := by
  decide

/-- C3 (amended): every coordinate in the result set after `Compute`
other than the observer's own cell satisfies the grid's `InBounds`
check; the observer's cell itself is added unconditionally. -/
theorem claim3_bounds_amended (v : View) (grid : GridMap) (px py r x y : Int)
    (hmem : (x, y) ∈ (View.Compute v grid px py r).Visible) :
    (x = px ∧ y = py) ∨ grid.InBounds x y = true := by
  simp only [View.Compute] at hmem
  rcases gsFoldl_mem
      (fun vis a z hz => fovRec_inv _ _ _ _ _ _ _ _ _ _ z hz) _ _ _ hmem with h | h
  · rcases Finset.mem_insert.mp h with h | h
    · simp only [Prod.mk.injEq] at h
      exact Or.inl h
    · exact absurd h (Finset.not_mem_empty _)
  · exact Or.inr h.1

/-- Witness for C3 (amended), at the 7x7 transparent grid, observer
(3,3), radius 3, cell (4,3). -/
theorem claim3_bounds_amended_witness :
    ((4 : Int) = 3 ∧ (3 : Int) = 3) ∨ grid7.InBounds 4 3 = true :=
  claim3_bounds_amended New grid7 3 3 3 4 3 (by decide)

/-- C4: for every grid, observer position and radius ≥ 0, the observer's
own cell is visible immediately after `Compute`, regardless of the
grid's opacity anywhere. -/
theorem claim4_self_visibility (v : View) (grid : GridMap) (px py r : Int)
    (_hr : 0 ≤ r) :
    (View.Compute v grid px py r).IsVisible px py = true := by
  simp only [View.IsVisible, View.Compute, decide_eq_true_eq]
  exact Finset.mem_of_subset
    (gsFoldl_subset (fun vis a => fovRec_mono _ _ _ _ _ _ _ _ _ vis) _ _)
    (Finset.mem_insert_self _ _)

/-- Witness for C4, at the 7x7 transparent grid, observer (3,3),
radius 3. -/
theorem claim4_self_visibility_witness :
    (0 : Int) ≤ 3 ∧ (View.Compute New grid7 3 3 3).IsVisible 3 3 = true :=
  ⟨by decide, claim4_self_visibility New grid7 3 3 3 (by decide)⟩

/-- C5: for every grid and observer, a zero or negative radius leaves
exactly the observer's own cell in the result set: the base case
`dist > rad` of the per-octant scan fires immediately since the initial
distance is 1. -/
theorem claim5_nonpositive_radius (v : View) (grid : GridMap) (px py r : Int)
    (hr : r ≤ 0) :
    (View.Compute v grid px py r).Visible = {(px, py)} := by
  have hlt : r < 1 := by omega
  simp only [View.Compute]
  rw [gsFoldl_fix (fun vis a => fovRec_base hlt _ _ _ _ _ _ _ vis)]
  rfl

/-- Witness for C5, at the 7x7 transparent grid, observer (3,3),
radius 0. -/
theorem claim5_nonpositive_radius_witness :
    (0 : Int) ≤ 0 ∧ (View.Compute New grid7 3 3 0).Visible = {((3 : Int), (3 : Int))} :=
  ⟨by decide, claim5_nonpositive_radius New grid7 3 3 0 (by decide)⟩

/-- C6: `Compute` fully replaces the result set: recomputing with
identical arguments from any prior `View` state — in particular from the
state a first identical call produced — yields an identical result. -/
theorem claim6_recompute_replaces (v w : View) (grid : GridMap) (px py r : Int) :
    View.Compute (View.Compute v grid px py r) grid px py r
        = View.Compute v grid px py r ∧
      View.Compute v grid px py r = View.Compute w grid px py r :=
  ⟨rfl, rfl⟩

/-- C7: the recursive scan terminates with recursion depth bounded by the
radius: the distance strictly increases on every recursive call and the
base case returns once it exceeds the radius, so any fuel of at least
`(rad + 1 - dist).toNat` — at the top-level call `dist = 1`, at most
`rad` — computes the scan's result. -/
theorem claim7_depth_bound (grid : GridMap) (px py : Int) (ls hs : Slope)
    (oct rad : Int) (vis : gridSet) (dist : Int) (fuel : Nat)
    (hfuel : (rad + 1 - dist).toNat ≤ fuel) :
    fovRec fuel grid px py dist ls hs oct rad vis
      = fovRec (rad + 1 - dist).toNat grid px py dist ls hs oct rad vis :=
  fovRec_fuel_congr grid px py oct rad fuel _ dist ls hs vis hfuel (Nat.le_refl _)

/-- Witness for C7, at the 7x7 transparent grid, octant 8, radius 3,
fuel 5. -/
theorem claim7_depth_bound_witness :
    ((3 : Int) + 1 - 1).toNat ≤ 5 ∧
    fovRec 5 grid7 3 3 1 slopeZero slopeOne 8 3 ∅
      = fovRec (((3 : Int) + 1 - 1).toNat) grid7 3 3 1 slopeZero slopeOne 8 3 ∅ :=
  ⟨by decide, claim7_depth_bound grid7 3 3 slopeZero slopeOne 8 3 ∅ 1 5 (by decide)⟩

/-- C8: `Compute` never depends on `IsOpaque` outside the grid's bounds:
two grids agreeing on `InBounds` everywhere and on `IsOpaque` at
in-bounds coordinates produce identical results, because every
`IsOpaque` query is short-circuited behind an `InBounds` check on the
same coordinate. -/
theorem claim8_inbounds_guards_isopaque (g1 g2 : GridMap) (v : View) (px py r : Int)
    (hb : ∀ x y, g1.InBounds x y = g2.InBounds x y)
    (ho : ∀ x y, g1.InBounds x y = true → g1.IsOpaque x y = g2.IsOpaque x y) :
    View.Compute v g1 px py r = View.Compute v g2 px py r := by
  simp only [View.Compute, View.mk.injEq]
  exact gsFoldl_congr
    (fun vis a => fovRec_grid_congr hb ho _ _ _ _ _ _ a _ vis) _ _

/-- Witness for C8: the 1x1 grid versus the same grid made opaque
everywhere outside its bounds. -/
theorem claim8_inbounds_guards_isopaque_witness :
    View.Compute New grid1 0 0 1 = View.Compute New grid1OpaqueOutside 0 0 1 :=
  claim8_inbounds_guards_isopaque grid1 grid1OpaqueOutside New 0 0 1
    (fun x y => rfl)
    (fun x y hxy => by
      have h2 : decide (x = 0 ∧ y = 0) = true := hxy
      show false = !decide (x = 0 ∧ y = 0)
      rw [h2]
      rfl)

/-- C9: for octant ids 1..8, the octant transform is the pure function
described by the claim: bit 0 of the id negates the distance offset,
bit 1 negates the height offset, and bit 2 swaps which axis receives
which, giving `(px + h, py + d)` instead of `(px + d, py + h)`. -/
theorem claim9_octant_transform (px py d h oct : Int)
    (hlo : 1 ≤ oct) (hhi : oct ≤ 8) :
    distHeightXY px py d h oct = distHeightXYSpec px py d h oct := by
  have hoct : oct = 1 ∨ oct = 2 ∨ oct = 3 ∨ oct = 4 ∨ oct = 5 ∨ oct = 6 ∨
      oct = 7 ∨ oct = 8 := by omega
  rcases hoct with h1 | h1 | h1 | h1 | h1 | h1 | h1 | h1 <;> subst h1 <;> rfl

/-- Witness for C9, at observer (10,20), distance 1, height 2,
octant 5. -/
theorem claim9_octant_transform_witness :
    (1 : Int) ≤ 5 ∧ (5 : Int) ≤ 8 ∧
    distHeightXY 10 20 1 2 5 = distHeightXYSpec 10 20 1 2 5 :=
  ⟨by decide, by decide, claim9_octant_transform 10 20 1 2 5 (by decide) (by decide)⟩

/-- C10: on every grid, every cell in the result set after `Compute`
other than the observer's own has truncated Euclidean distance from the
observer strictly below the radius (hence the radius is positive: for
r ≤ 0 nothing besides the observer's cell is ever marked). -/
theorem claim10_radius_invariant (v : View) (grid : GridMap) (px py r x y : Int)
    (hmem : (x, y) ∈ (View.Compute v grid px py r).Visible)
    (hne : ¬(x = px ∧ y = py)) :
    distTo px py x y < r ∧ 0 < r := by
  simp only [View.Compute] at hmem
  rcases gsFoldl_mem
      (fun vis a z hz => fovRec_inv _ _ _ _ _ _ _ _ _ _ z hz) _ _ _ hmem with h | h
  · rcases Finset.mem_insert.mp h with h | h
    · simp only [Prod.mk.injEq] at h
      exact absurd h hne
    · exact absurd h (Finset.not_mem_empty _)
  · have h2 : distTo px py x y < r := h.2
    have hd : (0 : Int) ≤ distTo px py x y := Int.ofNat_zero_le _
    exact ⟨h2, by omega⟩

/-- Witness for C10, at the 7x7 transparent grid, observer (3,3),
radius 3, cell (4,3). -/
theorem claim10_radius_invariant_witness :
    distTo 3 3 4 3 < 3 ∧ (0 : Int) < 3 :=
  claim10_radius_invariant New grid7 3 3 3 4 3 (by decide) (by decide)

end GoFov
